import Mathlib

/-!
Verification of the debug/introspection core of the Sol interpreter
(`ldebug.c`): the line-info decoder, the frame walker, the symbolic
executor, the hook/trace engine, the error constructors and the host
debug API, embedded shallowly in Lean.

C `int` values that can go negative (program-counter bases, registers
limits, stack slots, lines) are modelled as `Int`; indices that are
always non-negative are `Nat`.  Arrays are Lean lists accessed with
`getD` (out-of-range C accesses are undefined behaviour; `getD` totalises
them with a default, and well-formedness hypotheses rule them out where
a proof depends on the value).
-/

namespace Sol

/-- `MAXIWTHABS`: maximal distance between entries of `abslineinfo`. -/
def MAXIWTHABS : Int := 128

/-- `ABSLINEINFO`: sentinel delta in `lineinfo` meaning "look the line up
in `abslineinfo`". -/
def ABSLINEINFO : Int := -0x80

/-- One entry of `Proto.abslineinfo`: an absolute-line anchor. -/
structure AbsLineInfo where
  pc : Int
  line : Int
deriving DecidableEq, Repr

instance : Inhabited AbsLineInfo := ⟨⟨0, 0⟩⟩

/-- A local-variable descriptor (name plus live pc range), as in `LocVar`. -/
structure LocVar where
  varname : String
  startpc : Int
  endpc : Int
deriving DecidableEq, Repr

/-- The opcodes of the Sol VM that `ldebug.c` inspects by name; all other
opcodes are `other n` and are only ever tested through the opcode-mode
predicates (`testAMode`, `testMMMode`), which the debug core receives as
opaque services from `lopcodes`. -/
inductive OpCode where
  | MOVE | LOADK | LOADKX | LOADNIL | GETUPVAL
  | GETTABUP | GETTABLE | GETI | GETFIELD
  | SETTABUP | SETTABLE | SETI | SETFIELD
  | SELF | CALL | TAILCALL | TFORCALL | JMP | RETURN | CLOSE
  | UNM | BNOT | LEN | CONCAT
  | EQ | LT | LE | EQI | EQK | LTI | LEI | GTI | GEI
  | MMBIN | MMBINI | MMBINK
  | VARARGPREP
  | other (n : Nat)
deriving DecidableEq, Repr

/-- A decoded instruction: the opcode together with its operand fields
(`GETARG_A/B/C/k/Bx/Ax/sJ` of the C encoding, kept as separate fields). -/
structure Instr where
  op : OpCode
  a : Nat := 0
  b : Nat := 0
  c : Nat := 0
  k : Bool := false
  bx : Nat := 0
  ax : Nat := 0
  sj : Int := 0
deriving DecidableEq, Repr

instance : Inhabited Instr := ⟨{ op := .other 0 }⟩

/-- A function prototype (`Proto`).  `lineinfo = none` models a NULL
line-info array (no debug information); constants (`k`) are kept only as
"string constant or not", which is all `kname` inspects. -/
structure Proto where
  linedefined : Int := 0
  lastlinedefined : Int := 0
  lineinfo : Option (List Int) := none
  abslineinfo : List AbsLineInfo := []
  code : List Instr := []
  k : List (Option String) := []
  upvalues : List (Option String) := []
  locvars : List LocVar := []
  is_vararg : Bool := false
  numparams : Nat := 0
  source : Option String := none
deriving DecidableEq, Repr

instance : Inhabited Proto := ⟨{}⟩

/-- `sizecode` of a prototype. -/
def Proto.sizecode (p : Proto) : Int := p.code.length

/-- The pc of `abslineinfo[i]` (reads with `getD`, like the C array access). -/
def absPc (p : Proto) (i : Int) : Int := (p.abslineinfo.getD i.toNat default).pc

/-- The line of `abslineinfo[i]`. -/
def absLine (p : Proto) (i : Int) : Int := (p.abslineinfo.getD i.toNat default).line

/-- The `while` loop of `getbaseline`: starting from the estimate `i`,
advance while the next anchor still lies at or before `pc`.  The loop in C
terminates because `i` strictly increases and is bounded by
`sizeabslineinfo`; here that bound is the explicit `fuel`, which callers
instantiate with `sizeabslineinfo` (enough for every possible start). -/
def gbAdjust (p : Proto) (pc : Nat) : Nat → Int → Int
  | 0, i => i
  | fuel + 1, i =>
      if i + 1 < (p.abslineinfo.length : Int) ∧ absPc p (i + 1) ≤ (pc : Int) then
        gbAdjust p pc fuel (i + 1)
      else i

/-- `getbaseline`: base line and base pc from which to decode the line of
`pc`.  Returns `(baseline, basepc)`; `basepc = -1` means "start from the
beginning". -/
def getbaseline (p : Proto) (pc : Nat) : Int × Int :=
  if p.abslineinfo.length = 0 ∨ (pc : Int) < absPc p 0 then
    (p.linedefined, -1)
  else
    -- `(pc : Int) / MAXIWTHABS - 1` is the estimate `i`, corrected by the loop
    (absLine p (gbAdjust p pc p.abslineinfo.length ((pc : Int) / MAXIWTHABS - 1)),
     absPc p (gbAdjust p pc p.abslineinfo.length ((pc : Int) / MAXIWTHABS - 1)))

/-- The value accumulated by the `while (basepc++ < pc)` walk of
`solG_getfuncline`: the sum of `lineinfo[basepc+1 .. pc]`.  The C loop
adds the same deltas in ascending order; here the range is summed by
structural recursion on `pc`, peeling the topmost delta first. -/
def walkSum (li : List Int) (basepc : Int) : Nat → Int
  | 0 => if basepc < 0 then li.getD 0 0 else 0
  | pc + 1 =>
      if basepc < ((pc : Int) + 1) then li.getD (pc + 1) 0 + walkSum li basepc pc
      else 0

/-- `solG_getfuncline`: the source line of instruction `pc` of `f`, or
`-1` when the prototype carries no debug information. -/
def solG_getfuncline (f : Proto) (pc : Nat) : Int :=
  match f.lineinfo with
  | none => -1
  | some li =>
      let bl := getbaseline f pc
      bl.1 + walkSum li bl.2 pc

/-- The inner `for (;;)` loop of `changedline`: accumulate deltas from
`lineinfo[pc+1]` on; `none` means the loop broke on `ABSLINEINFO` (fall
through to the explicit comparison).  The C loop stops at `newpc`, which
the caller guarantees lies ahead; the recursion is fuelled by the
remaining distance. -/
def cdLoop (li : List Int) (newpc : Nat) : Nat → Int → Nat → Option Bool
  | 0, _, _ => none
  | fuel + 1, delta, pc =>
      let l := li.getD (pc + 1) 0
      if l = ABSLINEINFO then none
      else
        let delta := delta + l
        if pc + 1 = newpc then some (delta ≠ 0)
        else cdLoop li newpc fuel delta (pc + 1)

/-- `changedline`: is instruction `newpc` on a different line from
`oldpc`?  Fast path sums deltas incrementally; on a sentinel or a large
gap it compares two calls of `solG_getfuncline`. -/
def changedline (p : Proto) (oldpc newpc : Nat) : Bool :=
  match p.lineinfo with
  | none => false
  | some li =>
      let slow := decide (solG_getfuncline p oldpc ≠ solG_getfuncline p newpc)
      if (newpc : Int) - (oldpc : Int) < MAXIWTHABS / 2 then
        match cdLoop li newpc (newpc - oldpc) 0 oldpc with
        | some b => b
        | none => slow
      else slow

/-- The scenario prototype of the specification: `linedefined = 10`,
`lineinfo = [0, +1, +2, ABSLINEINFO, -3]`, `abslineinfo = [(3, 15)]`. -/
def scenarioProto : Proto :=
  { linedefined := 10
    lastlinedefined := 12
    lineinfo := some [0, 1, 2, ABSLINEINFO, -3]
    abslineinfo := [⟨3, 15⟩]
    code := [default, default, default, default, default] }

/-- Well-formedness of a prototype's line information: the invariants the
specification states for compiler-generated prototypes (and that the C
code itself asserts).  `li` is the (non-NULL) delta array; anchors of
`abslineinfo` are in range, strictly sorted by pc, sit exactly on
`ABSLINEINFO` sentinels of `lineinfo`, and the integer-division estimate
of `getbaseline` is a valid lower bound for the correct anchor. -/
structure WfLineInfo (p : Proto) (li : List Int) : Prop where
  lineinfo_eq : p.lineinfo = some li
  anchor_nonneg : ∀ a ∈ p.abslineinfo, 0 ≤ a.pc
  anchor_lt : ∀ a ∈ p.abslineinfo, a.pc < (li.length : Int)
  anchor_sentinel : ∀ a ∈ p.abslineinfo, li.getD a.pc.toNat 0 = ABSLINEINFO
  anchors_sorted : p.abslineinfo.Pairwise (fun x y => x.pc < y.pc)
  estimate_lb : ∀ pc : Nat, pc < li.length → 0 ≤ (pc : Int) / MAXIWTHABS - 1 →
      (pc : Int) / MAXIWTHABS - 1 < (p.abslineinfo.length : Int) ∧
      absPc p ((pc : Int) / MAXIWTHABS - 1) ≤ (pc : Int)

/-- `r` is the greatest anchor index whose pc lies at or before `pc`. -/
structure IsBase (p : Proto) (pc : Nat) (r : Nat) : Prop where
  lt : r < p.abslineinfo.length
  le : absPc p (r : Int) ≤ (pc : Int)
  upper : r + 1 < p.abslineinfo.length → (pc : Int) < absPc p ((r : Int) + 1)

/-! ### Symbolic executor: `findsetreg`

The opcode-mode predicates `testAMode` and `testMMMode` are opcode-table
lookups from `lopcodes`, consumed by the debug core as opaque services;
they are taken as parameters, so every theorem below holds for every
possible opcode table. -/

/-- `filterpc`: a position before `jmptarget` is conditional, so the
setter cannot be trusted (the candidate is reset to `-1`). -/
def filterpc (pc jmptarget : Int) : Int :=
  if pc < jmptarget then -1 else pc

/-- Does instruction `i` (sitting at `pc`, with scan limit `lastpc`)
change register `reg`?  This is the `change` flag of the `switch` of
`findsetreg`. -/
def changesReg (tA : OpCode → Bool) (i : Instr) (reg : Nat) : Bool :=
  match i.op with
  | .LOADNIL => decide (i.a ≤ reg ∧ reg ≤ i.a + i.b)
  | .TFORCALL => decide (reg ≥ i.a + 2)
  | .CALL => decide (reg ≥ i.a)
  | .TAILCALL => decide (reg ≥ i.a)
  | .JMP => false
  | op => tA op && decide (reg = i.a)

/-- The `jmptarget` update of the `OP_JMP` case: the jump destination is
adopted when it does not skip `lastpc` and is larger than the current
target. -/
def jmpStep (i : Instr) (pc : Nat) (lastpc jmptarget : Int) : Int :=
  match i.op with
  | .JMP =>
      let dest : Int := (pc : Int) + 1 + i.sj
      if dest ≤ lastpc ∧ dest > jmptarget then dest else jmptarget
  | _ => jmptarget

/-- The scan loop of `findsetreg` over `pc ∈ [pos, lastpc)`, carrying the
candidate `setreg` and the conditional-region bound `jmptarget`.  The C
`for` loop runs at most `lastpc` iterations; `fuel` bounds the recursion
structurally and is instantiated with exactly that bound, so exhausting
it coincides with the loop test failing. -/
def fsrLoop (tA : OpCode → Bool) (code : List Instr) (lastpc : Int) (reg : Nat) :
    Nat → Nat → Int → Int → Int
  | 0, _, setreg, _ => setreg
  | fuel + 1, pos, setreg, jmptarget =>
      if (pos : Int) < lastpc then
        let i := code.getD pos default
        let jmptarget := jmpStep i pos lastpc jmptarget
        let setreg := if changesReg tA i reg then filterpc pos jmptarget else setreg
        fsrLoop tA code lastpc reg fuel (pos + 1) setreg jmptarget
      else setreg

/-- `findsetreg`: last instruction before `lastpc` that set register
`reg`, or `-1`.  If the instruction at `lastpc` invokes a metamethod
(`testMMMode`), it has not actually executed yet, so the scan limit is
first decremented. -/
def findsetreg (tA tMM : OpCode → Bool) (p : Proto) (lastpc : Int) (reg : Nat) : Int :=
  let lastpc := if tMM (p.code.getD lastpc.toNat default).op then lastpc - 1 else lastpc
  fsrLoop tA p.code lastpc reg lastpc.toNat 0 (-1) 0

/-- Recursion core of `lastChange` (fuelled like `fsrLoop`). -/
def lcGo (tA : OpCode → Bool) (code : List Instr) (reg : Nat) (lastpc : Int) :
    Nat → Nat → Option Nat
  | 0, _ => none
  | fuel + 1, pos =>
      if (pos : Int) < lastpc then
        match lcGo tA code reg lastpc fuel (pos + 1) with
        | some m => some m
        | none =>
            if changesReg tA (code.getD pos default) reg then some pos else none
      else none

/-- The pc of the last instruction in `[pos, lastpc)` that changes `reg`,
scanning `code`; `none` when no instruction in the range does. -/
def lastChange (tA : OpCode → Bool) (code : List Instr) (reg : Nat) (lastpc : Int)
    (pos : Nat) : Option Nat :=
  lcGo tA code reg lastpc (lastpc - (pos : Int)).toNat pos

/-- Recursion core of `jmtUpto`. -/
def jmtGo (code : List Instr) (lastpc : Int) : Nat → Int → Nat → Int
  | 0, j, _ => j
  | fuel + 1, j, pos =>
      jmtGo code lastpc fuel (jmpStep (code.getD pos default) pos lastpc j) (pos + 1)

/-- The value `jmptarget` has accumulated after the scan has processed
`pc ∈ [pos, stop)`, starting from `j`. -/
def jmtUpto (code : List Instr) (lastpc : Int) (j : Int) (pos stop : Nat) : Int :=
  jmtGo code lastpc (stop - pos) j pos

/-- Candidate-preserving scan: discarded writes do not erase `setreg`. -/
def claimLoop (tA : OpCode → Bool) (code : List Instr) (lastpc : Int) (reg : Nat) :
    Nat → Nat → Int → Int → Int
  | 0, _, setreg, _ => setreg
  | fuel + 1, pos, setreg, jmptarget =>
      if (pos : Int) < lastpc then
        let i := code.getD pos default
        let jmptarget := jmpStep i pos lastpc jmptarget
        let setreg :=
          if changesReg tA i reg ∧ (pos : Int) ≥ jmptarget then (pos : Int) else setreg
        claimLoop tA code lastpc reg fuel (pos + 1) setreg jmptarget
      else setreg

/-- The reading of the claim under which a write inside a jump region is
merely skipped (the previously accepted candidate is kept): same scan as
the code, but a filtered-out write leaves `setreg` unchanged. -/
def findsetregClaim (tA tMM : OpCode → Bool) (p : Proto) (lastpc : Int) (reg : Nat) : Int :=
  let lp : Int :=
    if tMM (p.code.getD lastpc.toNat default).op then lastpc - 1 else lastpc
  claimLoop tA p.code lp reg lp.toNat 0 (-1) 0

/-- Example opcode table: only `MOVE` is an A-mode (register-setting)
instruction and nothing is a metamethod-mode instruction. -/
def tAex : OpCode → Bool := fun op => op = .MOVE

/-- Example `testMMMode` table: empty. -/
def tMMex : OpCode → Bool := fun _ => false

/-- The counterexample program: register 0 is written unconditionally at
pc 0, a jump at pc 1 raises `jmptarget` to 3, and a conditional write at
pc 2 lies inside the jump region. -/
def fsrProto : Proto :=
  { code := [ { op := .MOVE, a := 0, b := 1 },
              { op := .JMP, sj := 1 },
              { op := .MOVE, a := 0, b := 2 },
              { op := .other 0 },
              { op := .other 0 } ] }

/-! ### Values, frames and interpreter state -/

/-- A closure value: a native (`C`) closure or a script (`Sol`) closure
with its prototype. -/
inductive Closure where
  | c (nupvalues : Nat)
  | sol (nupvalues : Nat) (p : Proto)
deriving DecidableEq, Repr

/-- Interpreter values, to the granularity the debug core inspects:
type tags plus the payloads it actually reads. -/
inductive Value where
  | nil
  | boolean (b : Bool)
  | num (n : Int)
  | str (s : String)
  | clos (c : Closure)
  | tbl (activeLines : List Int)
  | other (n : Nat)
deriving DecidableEq, Repr

instance : Inhabited Value := ⟨.nil⟩

/-- `ttisstring`. -/
def ttisstring : Value → Bool
  | .str _ => true
  | _ => false

/-- Call-status bits of a frame.  Modelled from the spec: `callstatus` is
"a bitset drawn from `{TAIL, HOOKED, FIN, TRAN, HOOKYIELD}`" (`lstate.h`
is not in src); the numeric positions are immaterial, only distinctness
is used. -/
def CIST_HOOKED : Nat := 1

/-- Tail-call bit of `callstatus`. -/
def CIST_TAIL : Nat := 2

/-- Finalizer bit of `callstatus`. -/
def CIST_FIN : Nat := 4

/-- Transfer-information bit of `callstatus`. -/
def CIST_TRAN : Nat := 8

/-- Hook-yield bit of `callstatus`. -/
def CIST_HOOKYIELD : Nat := 16

/-- An activation record.  `savedpc` is kept relative to the start of the
prototype's code (the C field is a pointer into `p->code`); `func` and
`top` are absolute stack-slot indices; `proto` is the prototype of the
frame's function (`ci_func(ci)->p`), meaningful for script frames. -/
structure CallInfo where
  isSol : Bool := true
  func : Int := 0
  top : Int := 0
  savedpc : Nat := 0
  nextraargs : Nat := 0
  trap : Nat := 0
  callstatus : Nat := 0
  proto : Proto := {}
  ftransfer : Nat := 0
  ntransfer : Nat := 0
deriving DecidableEq, Repr

instance : Inhabited CallInfo := ⟨{ isSol := false }⟩

/-- `currentpc`: relative pc of a script frame; `pcRel` subtracts one
because `savedpc` points at the instruction after the current one. -/
def currentpc (ci : CallInfo) : Int := (ci.savedpc : Int) - 1

/-- Hook-mask bit for call hooks.  Modelled from the spec: the hook mask
is "a bitset over `{CALL, RET, LINE, COUNT}`" (`sol.h` is not in src);
the standard one-bit-per-event encoding is used. -/
def SOL_MASKCALL : Nat := 1

/-- Hook-mask bit for return hooks. -/
def SOL_MASKRET : Nat := 2

/-- Hook-mask bit for line hooks. -/
def SOL_MASKLINE : Nat := 4

/-- Hook-mask bit for count hooks. -/
def SOL_MASKCOUNT : Nat := 8

/-- Interpreter status code for a yield (`SOL_YIELD`). -/
def SOL_YIELD : Nat := 1

/-- Interpreter state: the hook state, the last-traced pc `oldpc`, the
stack (a total map from absolute slot indices, plus the `top` index) and
the frame chain `cis` (current frame first, ending at `base_ci`).  The
user hook is identified by an opaque number; `none` is the NULL
pointer. -/
structure SolState where
  hook : Option Nat := none
  hookmask : Nat := 0
  basehookcount : Int := 0
  hookcount : Int := 0
  oldpc : Nat := 0
  status : Nat := 0
  top : Int := 0
  stk : Int → Value := fun _ => .nil
  errfunc : Int := 0
  cis : List CallInfo := []

/-- The frame `idx` steps down the `previous` chain from the current
frame (reads with a default, like following a dangling pointer would
not). -/
def SolState.ciAt (L : SolState) (idx : Nat) : CallInfo := L.cis.getD idx default

/-- The current frame `L->ci`. -/
def SolState.ci (L : SolState) : CallInfo := L.cis.headD default

/-- Replace the current frame. -/
def SolState.setCi (L : SolState) (ci : CallInfo) : SolState :=
  { L with cis := ci :: L.cis.tail }

/-- `settraps`: set `trap` on every Sol frame of the chain. -/
def settraps (cis : List CallInfo) : List CallInfo :=
  cis.map fun ci => if ci.isSol then { ci with trap := 1 } else ci

/-- `cast_byte`: the C conversion of an `int` to `lu_byte` (an unsigned
char), i.e. reduction modulo 2^8. -/
def cast_byte (n : Int) : Nat := (n % 256).toNat

/-- The straight-line tail of `sol_sethook` after the turn-off
normalisation. -/
def sethookCore (L : SolState) (func : Option Nat) (mask count : Int) : SolState :=
  let L := { L with hook := func, basehookcount := count }
  let L := { L with hookcount := L.basehookcount }
  let L := { L with hookmask := cast_byte mask }
  if mask ≠ 0 then { L with cis := settraps L.cis } else L

/-- `sol_sethook`: install (or clear) the hook.  A null function or a
zero mask turns hooks off; `resethookcount` copies `basehookcount` into
`hookcount`; a non-zero mask re-arms `trap` on the whole chain. -/
def sol_sethook (L : SolState) (func : Option Nat) (mask count : Int) : SolState :=
  if func = none ∨ mask = 0 then  -- turn off hooks?
    sethookCore L none 0 count
  else
    sethookCore L func mask count

/-! ### Frame walker: locals and varargs -/

/-- `findvararg`: negative `n` indexes the extra arguments of a vararg
frame, which live just below `func`; valid when `-n ≤ nextraargs`. -/
def findvararg (ci : CallInfo) (n : Int) : Option (String × Int) :=
  if ci.proto.is_vararg then
    if n ≥ -(ci.nextraargs : Int) then  -- `n` is negative
      some ("(vararg)", ci.func - (ci.nextraargs : Int) - (n + 1))
    else none
  else none

/-- Modelled from the spec: `solF_getlocalname` (`lfunc.c`, not in src);
per §4.B the walker "consults the prototype's local-name table for a
local live at `currentpc`": walk the descriptors in order while their
scope has started, count those whose live range `[startpc, endpc)`
contains `pc`, and return the name of the `local_number`-th. -/
def getlocalnameGo (pc : Int) : List LocVar → Int → Option String
  | [], _ => none
  | lv :: rest, k =>
      if lv.startpc ≤ pc then
        if pc < lv.endpc then
          if k - 1 = 0 then some lv.varname
          else getlocalnameGo pc rest (k - 1)
        else getlocalnameGo pc rest k
      else none

/-- Modelled from the spec: see `getlocalnameGo`. -/
def solF_getlocalname (p : Proto) (local_number : Int) (pc : Int) : Option String :=
  getlocalnameGo pc p.locvars local_number

/-- `solG_findlocal`: symbolic name and slot of local `n` of the frame
`idx` levels down the chain.  Negative `n` in a script frame addresses
varargs; otherwise the local-name table is consulted, and slots inside
the frame's active region fall back to a generic `"(temporary)"`
(`"(C temporary)"` for native frames).  `ci == L->ci` becomes `idx = 0`,
and `ci->next` is the frame one step closer to the current one. -/
def solG_findlocal (L : SolState) (idx : Nat) (n : Int) : Option (String × Int) :=
  let ci := L.ciAt idx
  let base : Int := ci.func + 1
  if ci.isSol ∧ n < 0 then  -- access to vararg values?
    findvararg ci n
  else
    let name : Option String :=
      if ci.isSol then solF_getlocalname ci.proto n (currentpc ci) else none
    match name with
    | some nm => some (nm, base + (n - 1))
    | none =>  -- no "standard" name: is `n` inside the frame's stack?
        let limit : Int := if idx = 0 then L.top else (L.ciAt (idx - 1)).func
        if limit - base ≥ n ∧ n > 0 then
          some (if ci.isSol then "(temporary)" else "(C temporary)", base + (n - 1))
        else none

/-- `sol_getlocal`: `ar = none` is the "non-active function" mode (the
function value sits on top of the stack and only parameters at pc 0 are
visible); otherwise the found slot's value is pushed. -/
def sol_getlocal (L : SolState) (ar : Option Nat) (n : Int) : Option String × SolState :=
  match ar with
  | none =>
      match L.stk (L.top - 1) with
      | .clos (.sol _ p) => (solF_getlocalname p n 0, L)
      | _ => (none, L)
  | some idx =>
      match solG_findlocal L idx n with
      | some (name, pos) =>
          (some name,
            { L with
                stk := fun s => if s = L.top then L.stk pos else L.stk s,
                top := L.top + 1 })
      | none => (none, L)

/-- `sol_setlocal`: pop the top of the stack into the local's slot — but
only when `solG_findlocal` produced a name. -/
def sol_setlocal (L : SolState) (idx : Nat) (n : Int) : Option String × SolState :=
  match solG_findlocal L idx n with
  | some (name, pos) =>
      (some name,
        { L with
            stk := fun s => if s = pos then L.stk (L.top - 1) else L.stk s,
            top := L.top - 1 })
  | none => (none, L)

/-- A two-frame state whose current frame is a vararg script frame with
two extra arguments below `func = 10`. -/
def varargState : SolState :=
  { top := 13
    cis := [ { isSol := true, func := 10, top := 13, savedpc := 1, nextraargs := 2
               proto := { is_vararg := true, code := [{ op := .VARARGPREP }] } },
             { isSol := false, func := 2, top := 9 } ] }

/-- Like `varargState` but with no extra arguments. -/
def novarargState : SolState :=
  { top := 13
    cis := [ { isSol := true, func := 10, top := 13, savedpc := 1, nextraargs := 0
               proto := { is_vararg := true, code := [{ op := .VARARGPREP }] } } ] }

/-- A state in which local 1 of the (native) current frame has no name:
the frame owns no stack slots. -/
def emptyFrameState : SolState :=
  { top := 1, cis := [ { isSol := false, func := 0, top := 1 } ] }

/-! ### Hook/trace engine -/

/-- The hook event codes delivered to the user hook. -/
inductive HookEvent where
  | call | ret | line | count | tailcall
deriving DecidableEq, Repr

/-- A user-installed hook: observes an event (with its line argument, or
`-1`) and may transform the whole interpreter state arbitrarily. -/
abbrev UserHook := HookEvent → Int → SolState → SolState

/-- Modelled from the spec: `solD_hook` (`ldo.c`, not in src) — "hooks
are dispatched by an external helper which transiently marks the frame,
invokes the user-installed hook, and restores state" (§4.F).  Dispatch
one event: run the user hook and record the event. -/
def solD_hook (uh : UserHook) (L : SolState) (ev : HookEvent) (line : Int) :
    SolState × List HookEvent :=
  (uh ev line L, [ev])

/-- Modelled from the spec: `solD_hookcall` (`ldo.c`, not in src) — on
entry to a script function the engine "fires a CALL hook" (§4.F). -/
def solD_hookcall (uh : UserHook) (L : SolState) : SolState × List HookEvent :=
  solD_hook uh L .call (-1)

/-- `solG_tracecall`: set `trap`, and on the first instruction of a
non-vararg function not resuming from a hook yield, fire the call hook.
Returns the C result (`0` = hooks start at `VARARGPREP`, `1` = keep
`trap` on) and the dispatched events. -/
def solG_tracecall (uh : UserHook) (L : SolState) : SolState × Int × List HookEvent :=
  let ci := L.ci
  let L1 := L.setCi { ci with trap := 1 }  -- ensure hooks will be checked
  if ci.savedpc = 0 then  -- first instruction (not resuming)?
    if ci.proto.is_vararg then
      (L1, 0, [])  -- hooks will start at VARARGPREP instruction
    else if ci.callstatus &&& CIST_HOOKYIELD = 0 then  -- not yielded?
      let r := solD_hookcall uh L1
      (r.1, 1, r.2)
    else (L1, 1, [])
  else (L1, 1, [])

/-- Outcome of `solG_traceexec`: a returned value, or an unwinding
`solD_throw(L, SOL_YIELD)`. -/
inductive TraceResult where
  | ret (r : Int)
  | yieldThrown
deriving DecidableEq, Repr

/-- The two hook-dispatch points of `solG_traceexec`: the scheduled
count hook, then — when line hooks are enabled and the pc went back or
the line changed — the line hook, recording `oldpc`. -/
def traceexecHooks (uh : UserHook) (mask : Nat) (p : Proto) (counthook : Bool)
    (L : SolState) (npc : Nat) : SolState × List HookEvent :=
  let r1 := if counthook then solD_hook uh L .count (-1) else (L, [])
  let r2 :=
    if mask &&& SOL_MASKLINE ≠ 0 then
      let oldpc := if r1.1.oldpc < p.code.length then r1.1.oldpc else 0
      let rl :=
        if npc ≤ oldpc ∨ changedline p oldpc npc then
          solD_hook uh r1.1 .line (solG_getfuncline p npc)
        else (r1.1, [])
      ({ rl.1 with oldpc := npc }, rl.2)
    else (r1.1, [])
  (r2.1, r1.2 ++ r2.2)

/-- The tail of `solG_traceexec` past the `CIST_HOOKYIELD` check:
correct the top when the current instruction does not read it, dispatch
the due hooks, then detect a hook yield and unwind. -/
def traceexecTail (isIT : Instr → Bool) (uh : UserHook) (mask : Nat) (p : Proto)
    (counthook : Bool) (L : SolState) (npc : Nat) :
    SolState × TraceResult × List HookEvent :=
  let L := if isIT (p.code.getD npc default) = false then
      { L with top := L.ci.top } else L  -- correct top
  let r := traceexecHooks uh mask p counthook L npc
  let L := r.1
  let sr : SolState × TraceResult :=
    if L.status = SOL_YIELD then  -- did hook yield?
      let L := if counthook then { L with hookcount := 1 } else L
      (L.setCi { L.ci with callstatus := L.ci.callstatus ||| CIST_HOOKYIELD },
       .yieldThrown)
    else (L, .ret 1)
  (sr.1, sr.2, r.2)

/-- `solG_traceexec`, called with the relative pc `npc` of the
instruction about to execute (the C argument is the pointer to that
instruction; after the `pc++` the saved pc is `npc + 1` and
`pcRel` recovers `npc`).  `isIT` is the opaque opcode predicate "reads
the stack top".  The `CIST_HOOKYIELD` bit is cleared by subtraction in
the branch where it is known to be set; the hook-dispatch tail lives in
the two helpers above. -/
def solG_traceexec (isIT : Instr → Bool) (uh : UserHook) (L : SolState) (npc : Nat) :
    SolState × TraceResult × List HookEvent :=
  let ci := L.ci
  let mask := L.hookmask
  let p := ci.proto
  if mask &&& (SOL_MASKLINE ||| SOL_MASKCOUNT) = 0 then  -- no hooks?
    (L.setCi { ci with trap := 0 }, .ret 0, [])
  else
    let L := L.setCi { ci with savedpc := npc + 1 }  -- save next-instruction pc
    let L := if mask &&& SOL_MASKCOUNT ≠ 0 then
        { L with hookcount := L.hookcount - 1 } else L
    let counthook : Bool := decide (mask &&& SOL_MASKCOUNT ≠ 0 ∧ L.hookcount = 0)
    let L := if counthook then { L with hookcount := L.basehookcount } else L
    if counthook = false ∧ mask &&& SOL_MASKLINE = 0 then
      (L, .ret 1, [])  -- no line hook and count not zero
    else if L.ci.callstatus &&& CIST_HOOKYIELD ≠ 0 then  -- hook yielded last time?
      (L.setCi { L.ci with callstatus := L.ci.callstatus - CIST_HOOKYIELD }, .ret 1, [])
    else traceexecTail isIT uh mask p counthook L npc

/-- A concrete state in which line and count hooks are both enabled and
the count is about to reach zero: both hooks are due. -/
def bothHooksState : SolState :=
  { hookmask := 12, hookcount := 1, basehookcount := 5
    cis := [ { isSol := true, func := 0, top := 3, savedpc := 1
               proto := { lineinfo := some [0, 1], linedefined := 7
                          code := [{ op := .RETURN }, { op := .RETURN }] } } ] }

/-- A user hook that does nothing. -/
def uhId : UserHook := fun _ _ s => s

/-- A one-frame state entering a non-vararg script function. -/
def entryState : SolState :=
  { cis := [ { isSol := true, func := 0, top := 3, savedpc := 0
               proto := { code := [{ op := .RETURN }] } } ] }

/-- Witness for C5: on `entryState` (and `novarargState`, whose function
is vararg but also at pc 0... the vararg case uses `varargEntryState`),
tracecall dispatches exactly one CALL hook resp. none. -/
def varargEntryState : SolState :=
  { cis := [ { isSol := true, func := 0, top := 3, savedpc := 0
               proto := { is_vararg := true, code := [{ op := .VARARGPREP }] } } ] }

/-! ### Error constructors -/

/-- Modelled from the spec: `cvt2str` (`lvm.h`, not in src) asks whether
an operand is convertible to a string for concatenation purposes; §4.E's
concatenation error "chooses the non-string operand", so no non-string
value counts as string-coercible. -/
def cvt2str (_ : Value) : Bool := false

/-- The observable content of a raised type error: the `op` text and the
value the message describes (the one `objtypename`/`varinfo` are applied
to) — the message is
`"attempt to {op} a {typename(blamed)} value{varinfo(blamed)}"`. -/
structure TypeErr where
  op : String
  blamed : Value
deriving DecidableEq, Repr

/-- `solG_typeerror`, reduced to the observable content of the raised
error. -/
def solG_typeerror (o : Value) (op : String) : TypeErr := ⟨op, o⟩

/-- `solG_concaterror`: when the first operand is a string (or coercible
to one), the second one must be the culprit. -/
def solG_concaterror (p1 p2 : Value) : TypeErr :=
  let p1 := if ttisstring p1 || cvt2str p1 then p2 else p1
  solG_typeerror p1 "concatenate"

/-! ### Symbolic executor: recovering names -/

/-- `upvalname`: the declared name of upvalue `uv`, or `"?"` when the
descriptor carries none. -/
def upvalname (p : Proto) (uv : Nat) : String :=
  match p.upvalues.getD uv none with
  | none => "?"
  | some s => s

/-- `kname`: a name for constant `index` — its text and the kind
`"constant"` when it is a string constant, otherwise no kind and the
placeholder `"?"`. -/
def kname (p : Proto) (index : Nat) : Option String × String :=
  match p.k.getD index none with
  | some s => (some "constant", s)
  | none => (none, "?")

/-- `basicgetobjname`: local-name table first, then symbolic execution
from the instruction `findsetreg` found.  Returns `(kind, newpc, name)`
— the C routine updates `*ppc` and `*name` through pointers.  The `MOVE`
recursion always descends to a strictly smaller register (`b < a = reg`),
so the explicit depth `fuel` (instantiated with `reg + 1` by callers, a
cap the design notes call sufficient and safe) is never exhausted. -/
def basicgetobjname (p : Proto) (tA tMM : OpCode → Bool) :
    Nat → Int → Nat → Option String × Int × String
  | 0, pc, _ => (none, pc, "?")
  | fuel + 1, pc, reg =>
      match solF_getlocalname p (reg + 1) pc with
      | some n => (some "local", pc, n)  -- is a local?
      | none =>
          -- else try symbolic execution
          let pc := findsetreg tA tMM p pc reg
          if pc ≠ -1 then  -- could find instruction?
            let i := p.code.getD pc.toNat default
            match i.op with
            | .MOVE =>
                if i.b < i.a then basicgetobjname p tA tMM fuel pc i.b
                else (none, pc, "?")
            | .GETUPVAL => (some "upvalue", pc, upvalname p i.b)
            | .LOADK =>
                let k := kname p i.bx
                (k.1, pc, k.2)
            | .LOADKX =>
                let k := kname p (p.code.getD (pc.toNat + 1) default).ax
                (k.1, pc, k.2)
            | _ => (none, pc, "?")
          else (none, pc, "?")

/-- `rname`: a name for register `c`, kept only when `basicgetobjname`
classified it as a constant (kind starting with the letter of
`"constant"`). -/
def rname (p : Proto) (tA tMM : OpCode → Bool) (pc : Int) (c : Nat) : String :=
  let r := basicgetobjname p tA tMM (c + 1) pc c
  match r.1 with
  | some what => if what.front = 'c' then r.2.2 else "?"
  | none => "?"

/-- `rkname`: name of the `C` operand of an RK instruction. -/
def rkname (p : Proto) (tA tMM : OpCode → Bool) (pc : Int) (i : Instr) : String :=
  if i.k then (kname p i.c).2  -- is `c` a constant?
  else rname p tA tMM pc i.c

/-- The `_ENV` identifier (`SOL_ENV` of `solconf.h`; the spec's glossary:
the implicit upvalue holding the global environment). -/
def SOL_ENV : String := "_ENV"

/-- `isEnv`: classify a table access as `"global"` when the indexed
table is the `_ENV` upvalue or a local/upvalue named `_ENV`, else
`"field"`. -/
def isEnv (p : Proto) (tA tMM : OpCode → Bool) (pc : Int) (i : Instr)
    (isup : Bool) : String :=
  let name : Option String :=
    if isup then some (upvalname p i.b)  -- is the table an upvalue?
    else
      let r := basicgetobjname p tA tMM (i.b + 1) pc i.b
      if r.1 = some "local" ∨ r.1 = some "upvalue" then some r.2.2
      else none  -- cannot be the variable _ENV
  match name with
  | some n => if n = SOL_ENV then "global" else "field"
  | none => "field"

/-- `getobjname`: extend `basicgetobjname` to table accesses. -/
def getobjname (p : Proto) (tA tMM : OpCode → Bool) (lastpc : Int) (reg : Nat) :
    Option (String × String) :=
  let r := basicgetobjname p tA tMM (reg + 1) lastpc reg
  match r.1 with
  | some kind => some (kind, r.2.2)
  | none =>
      let pc := r.2.1
      if pc ≠ -1 then  -- could find instruction?
        let i := p.code.getD pc.toNat default
        match i.op with
        | .GETTABUP => some (isEnv p tA tMM pc i true, (kname p i.c).2)
        | .GETTABLE => some (isEnv p tA tMM pc i false, rname p tA tMM pc i.c)
        | .GETI => some ("field", "integer index")
        | .GETFIELD => some (isEnv p tA tMM pc i false, (kname p i.c).2)
        | .SELF => some ("method", rkname p tA tMM pc i)
        | _ => none
      else none

/-- Modelled from the spec: the interned metamethod-name table
`G(L)->tmname` (`ltm.c/ltm.h`, not in src).  §4.C: metamethod names are
"taken from the interpreter's interned metamethod-name table and
stripped of their two-character prefix `__`"; the table is indexed by
the `TMS` ordinal, which `OP_MMBIN` carries in its `C` operand. -/
def tmname : List String :=
  ["__index", "__newindex", "__gc", "__mode", "__len", "__eq",
   "__add", "__sub", "__mul", "__mod", "__pow", "__div", "__idiv",
   "__band", "__bor", "__bxor", "__shl", "__shr",
   "__unm", "__bnot", "__lt", "__le", "__concat", "__call", "__close"]

/-- `TMS` ordinals used by name in `funcnamefromcode`. -/
def TM_INDEX : Nat := 0

/-- `TM_NEWINDEX`. -/
def TM_NEWINDEX : Nat := 1

/-- `TM_LEN`. -/
def TM_LEN : Nat := 4

/-- `TM_EQ`. -/
def TM_EQ : Nat := 5

/-- `TM_UNM`. -/
def TM_UNM : Nat := 18

/-- `TM_BNOT`. -/
def TM_BNOT : Nat := 19

/-- `TM_LT`. -/
def TM_LT : Nat := 20

/-- `TM_LE`. -/
def TM_LE : Nat := 21

/-- `TM_CONCAT`. -/
def TM_CONCAT : Nat := 22

/-- `TM_CLOSE`. -/
def TM_CLOSE : Nat := 24

/-- `getshrstr(G(L)->tmname[tm]) + 2`: the interned metamethod name with
its `"__"` prefix stripped. -/
def eventname (tm : Nat) : String := (tmname.getD tm "__?").drop 2

/-- `funcnamefromcode`: name a called function from the calling
instruction. -/
def funcnamefromcode (p : Proto) (tA tMM : OpCode → Bool) (pc : Int) :
    Option (String × String) :=
  let i := p.code.getD pc.toNat default  -- calling instruction
  let mm : Nat → Option (String × String) := fun tm => some ("metamethod", eventname tm)
  match i.op with
  | .CALL => getobjname p tA tMM pc i.a  -- get function name
  | .TAILCALL => getobjname p tA tMM pc i.a
  | .TFORCALL => some ("for iterator", "for iterator")
  -- other instructions can do calls through metamethods
  | .SELF => mm TM_INDEX
  | .GETTABUP => mm TM_INDEX
  | .GETTABLE => mm TM_INDEX
  | .GETI => mm TM_INDEX
  | .GETFIELD => mm TM_INDEX
  | .SETTABUP => mm TM_NEWINDEX
  | .SETTABLE => mm TM_NEWINDEX
  | .SETI => mm TM_NEWINDEX
  | .SETFIELD => mm TM_NEWINDEX
  | .MMBIN => mm i.c
  | .MMBINI => mm i.c
  | .MMBINK => mm i.c
  | .UNM => mm TM_UNM
  | .BNOT => mm TM_BNOT
  | .LEN => mm TM_LEN
  | .CONCAT => mm TM_CONCAT
  | .EQ => mm TM_EQ
  -- no cases for EQI and EQK, as they do not call metamethods
  | .LT => mm TM_LT
  | .LTI => mm TM_LT
  | .GTI => mm TM_LT
  | .LE => mm TM_LE
  | .LEI => mm TM_LE
  | .GEI => mm TM_LE
  | .CLOSE => mm TM_CLOSE
  | .RETURN => mm TM_CLOSE
  | _ => none  -- cannot find a reasonable name

/-- `funcnamefromcall`: name a function from how it was called.  (The C
routine receives `L` only to reach the global `tmname` table, which is a
standalone constant here.) -/
def funcnamefromcall (tA tMM : OpCode → Bool) (ci : CallInfo) :
    Option (String × String) :=
  if ci.callstatus &&& CIST_HOOKED ≠ 0 then  -- called inside a hook?
    some ("hook", "?")
  else if ci.callstatus &&& CIST_FIN ≠ 0 then  -- called as a finalizer?
    some ("metamethod", "__gc")
  else if ci.isSol then
    funcnamefromcode ci.proto tA tMM (currentpc ci)
  else none

/-! ### Info assembler -/

/-- The debug-info record (`sol_Debug`).  `i_ci` is the opaque frame
handle (here: the index of the frame down the `previous` chain). -/
structure DebugInfo where
  source : String := ""
  srclen : Nat := 0
  short_src : String := ""
  what : String := ""
  linedefined : Int := 0
  lastlinedefined : Int := 0
  currentline : Int := 0
  name : Option String := none
  namewhat : String := ""
  nups : Nat := 0
  nparams : Nat := 0
  isvararg : Bool := false
  istailcall : Nat := 0
  ftransfer : Nat := 0
  ntransfer : Nat := 0
  i_ci : Nat := 0
deriving DecidableEq, Repr

/-- Modelled from the spec: `solO_chunkid` (`lobject.c`, not in src)
"collapses a source identifier into a printable ≤ IDSIZE string" (§6).
No claim depends on the collapsed text, so it is modelled as the
identity. -/
def solO_chunkid (source : String) : String := source

/-- `funcinfo`: the `S` fields of the record. -/
def funcinfo (ar : DebugInfo) (cl : Option Closure) : DebugInfo :=
  match cl with
  | some (.sol _ p) =>
      let src := match p.source with
        | some s => s
        | none => "=?"
      { ar with
          source := src
          srclen := src.length
          linedefined := p.linedefined
          lastlinedefined := p.lastlinedefined
          what := if p.linedefined = 0 then "main" else "Sol"
          short_src := solO_chunkid src }
  | _ =>
      { ar with
          source := "=[C]"
          srclen := 4
          linedefined := -1
          lastlinedefined := -1
          what := "C"
          short_src := solO_chunkid "=[C]" }

/-- `getcurrentline` of a script frame (the relative pc is non-negative
for any running frame; `toNat` realises the `int` as an index). -/
def getcurrentline (ci : CallInfo) : Int :=
  solG_getfuncline ci.proto (currentpc ci).toNat

/-- `getfuncname`: the calling function must be known and not a tail
call; then the caller's call site names the function. -/
def getfuncname (tA tMM : OpCode → Bool) (L : SolState) (ci : Option Nat) :
    Option (String × String) :=
  match ci with
  | some idx =>
      if (L.ciAt idx).callstatus &&& CIST_TAIL = 0 then
        funcnamefromcall tA tMM (L.ciAt (idx + 1))  -- ci->previous
      else none  -- no way to find a name
  | none => none

/-- `auxgetinfo`: fill the requested fields of the record, one tag
character at a time; an unrecognised character flips the status to 0 and
writes nothing, and the scan continues.  (`L` and `f`/`ci` are threaded
unchanged, as in C; `f` is the inspected closure, `ci` the optional
frame index.) -/
def auxgetinfo (tA tMM : OpCode → Bool) (L : SolState) :
    List Char → DebugInfo → Option Closure → Option Nat → Nat × DebugInfo
  | [], ar, _, _ => (1, ar)
  | c :: what, ar, f, ci =>
      if c = 'S' then
        auxgetinfo tA tMM L what (funcinfo ar f) f ci
      else if c = 'l' then
        let cl : Int := match ci with
          | some idx => if (L.ciAt idx).isSol then getcurrentline (L.ciAt idx) else -1
          | none => -1
        auxgetinfo tA tMM L what { ar with currentline := cl } f ci
      else if c = 'u' then
        let nups := match f with
          | none => 0
          | some (.c n) => n
          | some (.sol n _) => n
        let ar := match f with
          | some (.sol _ p) =>
              { ar with nups := nups, isvararg := p.is_vararg, nparams := p.numparams }
          | _ => { ar with nups := nups, isvararg := true, nparams := 0 }
        auxgetinfo tA tMM L what ar f ci
      else if c = 't' then
        let it := match ci with
          | some idx => (L.ciAt idx).callstatus &&& CIST_TAIL
          | none => 0
        auxgetinfo tA tMM L what { ar with istailcall := it } f ci
      else if c = 'n' then
        let ar := match getfuncname tA tMM L ci with
          | some (kind, nm) => { ar with namewhat := kind, name := some nm }
          | none => { ar with namewhat := "", name := none }  -- not found
        auxgetinfo tA tMM L what ar f ci
      else if c = 'r' then
        let ar := match ci with
          | some idx =>
              if (L.ciAt idx).callstatus &&& CIST_TRAN = 0 then
                { ar with ftransfer := 0, ntransfer := 0 }
              else
                { ar with
                    ftransfer := (L.ciAt idx).ftransfer
                    ntransfer := (L.ciAt idx).ntransfer }
          | none => { ar with ftransfer := 0, ntransfer := 0 }
        auxgetinfo tA tMM L what ar f ci
      else if c = 'L' then
        auxgetinfo tA tMM L what ar f ci  -- handled by sol_getinfo
      else if c = 'f' then
        auxgetinfo tA tMM L what ar f ci  -- handled by sol_getinfo
      else
        let r := auxgetinfo tA tMM L what ar f ci
        (0, r.2)  -- invalid option

/-- `nextline`: line of instruction `pc` given the line of the previous
one — a cheap delta step unless the entry is the absolute-line
sentinel. -/
def nextline (p : Proto) (currentline : Int) (pc : Nat) : Int :=
  let li := p.lineinfo.getD []
  if li.getD pc 0 ≠ ABSLINEINFO then currentline + li.getD pc 0
  else solG_getfuncline p pc

/-- Push a value onto the stack (`api_incr_top` after a store at the
top). -/
def push (L : SolState) (v : Value) : SolState :=
  { L with stk := fun s => if s = L.top then v else L.stk s, top := L.top + 1 }

/-- The walk of `collectvalidlines`: lines of instructions
`i, i+1, ...`, carrying the running current line; `fuel` is instantiated
with the number of remaining entries. -/
def vlGo (p : Proto) : Nat → Nat → Int → List Int
  | 0, _, _ => []
  | fuel + 1, i, currentline =>
      let cl := nextline p currentline i
      cl :: vlGo p fuel (i + 1) cl

/-- `collectvalidlines`: push a table whose keys are exactly the lines
with an instruction (modelled as the pushed list of those lines, in
insertion order), or nil for a non-Sol closure.  Vararg functions skip
the mandatory `VARARGPREP` prelude instruction after absorbing its
line. -/
def collectvalidlines (L : SolState) (f : Option Closure) : SolState :=
  match f with
  | some (.sol _ p) =>
      let lines : List Int :=
        match p.lineinfo with
        | none => []  -- proto without debug information
        | some li =>
            if ¬ p.is_vararg then  -- regular function?
              vlGo p li.length 0 p.linedefined  -- consider all instructions
            else  -- vararg function: skip first instruction (VARARGPREP)
              vlGo p (li.length - 1) 1 (nextline p p.linedefined 0)
      push L (.tbl lines)
  | _ => push L .nil

/-- The common tail of `sol_getinfo` past the `'>'` dispatch. -/
def getinfoCore (tA tMM : OpCode → Bool) (L : SolState) (what : List Char)
    (ar : DebugInfo) (func : Value) (ci : Option Nat) :
    Nat × DebugInfo × SolState :=
  let cl : Option Closure := match func with
    | .clos c => some c
    | _ => none
  let r := auxgetinfo tA tMM L what ar cl ci
  let L := if what.contains 'f' then push L func else L
  let L := if what.contains 'L' then collectvalidlines L cl else L
  (r.1, r.2, L)

/-- `sol_getinfo`: a leading `'>'` asks about a function value popped
from the stack; otherwise the record's `i_ci` handle names the frame.
Returns the status, the filled record, and the resulting state (the `f`
and `L` tags push onto the stack). -/
def sol_getinfo (tA tMM : OpCode → Bool) (L : SolState) (what : List Char)
    (ar : DebugInfo) : Nat × DebugInfo × SolState :=
  if what.headD ' ' = '>' then
    let func := L.stk (L.top - 1)
    let L1 := { L with top := L.top - 1 }  -- pop function
    getinfoCore tA tMM L1 what.tail ar func none
  else
    let func := L.stk (L.ciAt ar.i_ci).func
    getinfoCore tA tMM L what ar func (some ar.i_ci)

/-- The tag characters `auxgetinfo` recognises. -/
def recognizedTag (c : Char) : Bool :=
  (['S', 'l', 'u', 't', 'n', 'r', 'f', 'L'] : List Char).contains c

/-! ### Theorems -/

/-- C1 counterexample: on the scenario prototype the decoder already moves
off line 10 at pc 1 — it returns 11 there, not the claimed 10 (the claimed
list `[10, 10, 11, 13, 15, 12]` applies each delta one instruction too
late, and has six entries for a five-instruction line table). -/
theorem getfuncline_scenario_pc1 :
    solG_getfuncline scenarioProto 1 = 11 ∧ solG_getfuncline scenarioProto 1 ≠ 10 := by
  constructor <;> decide

/-- C1 (amended): on the scenario prototype, `solG_getfuncline` maps the
program counters 0, 1, 2, 3, 4 to the lines 10, 11, 13, 15, 12: the delta
`lineinfo[pc]` is included in the line of `pc` itself, and pc 3 is decoded
from the absolute anchor `(3, 15)`. -/
theorem getfuncline_scenario :
    solG_getfuncline scenarioProto 0 = 10 ∧
    solG_getfuncline scenarioProto 1 = 11 ∧
    solG_getfuncline scenarioProto 2 = 13 ∧
    solG_getfuncline scenarioProto 3 = 15 ∧
    solG_getfuncline scenarioProto 4 = 12 := by
  refine ⟨?_, ?_, ?_, ?_, ?_⟩ <;> decide

/-! ### Line-info decoder: correctness lemmas -/

/-- `walkSum` over an empty range is zero. -/
theorem walkSum_of_le (li : List Int) {basepc : Int} {pc : Nat} (h : (pc : Int) ≤ basepc) :
    walkSum li basepc pc = 0 := by
  cases pc with
  | zero => simp only [walkSum]; rw [if_neg (by omega)]
  | succ n => simp only [walkSum]; rw [if_neg (by push_cast at h; omega)]

/-- Peeling the topmost delta off a `walkSum` range. -/
theorem walkSum_succ (li : List Int) {basepc : Int} (pc : Nat) (h : basepc < (pc : Int) + 1) :
    walkSum li basepc (pc + 1) = li.getD (pc + 1) 0 + walkSum li basepc pc := by
  simp only [walkSum]
  rw [if_pos h]

/-- `absPc` at a valid natural index is the pc of that anchor. -/
theorem absPc_natCast (p : Proto) (i : Nat) (h : i < p.abslineinfo.length) :
    absPc p (i : Int) = (p.abslineinfo.get ⟨i, h⟩).pc := by
  unfold absPc
  rw [Int.toNat_natCast, List.getD_eq_getElem p.abslineinfo default h,
    List.get_eq_getElem]

/-- Anchors sorted by pc give strictly monotone `absPc` on valid indices. -/
theorem absPc_strictMono (p : Proto)
    (hs : p.abslineinfo.Pairwise (fun x y => x.pc < y.pc))
    {i j : Nat} (hij : i < j) (hj : j < p.abslineinfo.length) :
    absPc p (i : Int) < absPc p (j : Int) := by
  have hi : i < p.abslineinfo.length := lt_trans hij hj
  have := (List.pairwise_iff_get.mp hs) ⟨i, hi⟩ ⟨j, hj⟩ hij
  rwa [absPc_natCast p i hi, absPc_natCast p j hj]

/-- Monotone version of `absPc_strictMono`. -/
theorem absPc_mono (p : Proto)
    (hs : p.abslineinfo.Pairwise (fun x y => x.pc < y.pc))
    {i j : Nat} (hij : i ≤ j) (hj : j < p.abslineinfo.length) :
    absPc p (i : Int) ≤ absPc p (j : Int) := by
  rcases Nat.eq_or_lt_of_le hij with he | hlt
  · rw [he]
  · exact le_of_lt (absPc_strictMono p hs hlt hj)

/-- Every anchor's pc equals `absPc` at its index. -/
theorem mem_absPc (p : Proto) {a : AbsLineInfo} (ha : a ∈ p.abslineinfo) :
    ∃ j : Nat, ∃ _ : j < p.abslineinfo.length, a.pc = absPc p (j : Int) := by
  obtain ⟨j, hget⟩ := List.get_of_mem ha
  exact ⟨j.1, j.2, by rw [absPc_natCast p j.1 j.2]; cases j; rw [hget]⟩

/-- There is at most one greatest anchor at or before `pc`. -/
theorem isBase_unique (p : Proto)
    (hs : p.abslineinfo.Pairwise (fun x y => x.pc < y.pc))
    {pc r s : Nat} (hr : IsBase p pc r) (hsb : IsBase p pc s) : r = s := by
  by_contra hne
  have key : ∀ u v : Nat, IsBase p pc u → IsBase p pc v → u < v → False := by
    intro u v hu hv huv
    have h1 : (pc : Int) < absPc p ((u : Int) + 1) :=
      hu.upper (by have := hv.lt; omega)
    have h2 : absPc p ((u + 1 : Nat) : Int) ≤ absPc p (v : Int) :=
      absPc_mono p hs (by omega) hv.lt
    rw [show ((u + 1 : Nat) : Int) = (u : Int) + 1 by push_cast; ring] at h2
    exact lt_irrefl _ (lt_of_le_of_lt hv.le (lt_of_lt_of_le h1 h2))
  rcases Nat.lt_or_ge r s with h | h
  · exact key r s hr hsb h
  · exact key s r hsb hr (by omega)

/-- The adjustment loop of `getbaseline`, started anywhere at or below the
correct base with enough fuel, stops exactly at the greatest anchor at or
before `pc`. -/
theorem gbAdjust_isBase (p : Proto) (pc : Nat) :
    ∀ fuel : Nat, ∀ i : Int, -1 ≤ i → i < (p.abslineinfo.length : Int) →
      (p.abslineinfo.length : Int) - 1 - i ≤ (fuel : Int) →
      (0 ≤ i → absPc p i ≤ (pc : Int)) →
      (i = -1 → 0 < p.abslineinfo.length ∧ absPc p 0 ≤ (pc : Int)) →
      ∃ r : Nat, IsBase p pc r ∧ gbAdjust p pc fuel i = (r : Int) := by
  intro fuel
  induction fuel with
  | zero =>
      intro i h1 h2 h3 h4 h5
      have hi : 0 ≤ i := by
        rcases eq_or_lt_of_le h1 with he | hlt
        · exfalso; obtain ⟨hl, _⟩ := h5 he.symm
          omega
        · omega
      refine ⟨i.toNat, ⟨by omega, ?_, ?_⟩, ?_⟩
      · rw [Int.toNat_of_nonneg hi]; exact h4 hi
      · intro hcon; exfalso; omega
      · simp [gbAdjust, Int.toNat_of_nonneg hi]
  | succ fuel ih =>
      intro i h1 h2 h3 h4 h5
      simp only [gbAdjust]
      split
      · next hcond =>
          obtain ⟨hc1, hc2⟩ := hcond
          exact ih (i + 1) (by omega) hc1 (by omega)
            (fun _ => hc2) (fun hcon => by omega)
      · next hcond =>
          rw [not_and_or] at hcond
          have hi : 0 ≤ i := by
            rcases eq_or_lt_of_le h1 with he | hlt
            · exfalso
              obtain ⟨hl, h0⟩ := h5 he.symm
              rcases hcond with hc | hc
              · omega
              · exact hc (by rw [show i + 1 = 0 by omega]; exact h0)
            · omega
          refine ⟨i.toNat, ⟨by omega, ?_, ?_⟩, ?_⟩
          · rw [Int.toNat_of_nonneg hi]; exact h4 hi
          · intro hlt
            rcases hcond with hc | hc
            · exfalso; omega
            · have hgt : (pc : Int) < absPc p (i + 1) := by omega
              rwa [show (((i.toNat : Nat) : Int) + 1) = i + 1 by omega]
          · rw [Int.toNat_of_nonneg hi]

/-- Characterization of `getbaseline` on well-formed line info: either no
anchor lies at or before `pc` and the base is `(linedefined, -1)`, or the
base is exactly the greatest anchor at or before `pc`. -/
theorem getbaseline_spec (p : Proto) (li : List Int) (wf : WfLineInfo p li)
    (pc : Nat) (hpc : pc < li.length) :
    (getbaseline p pc = (p.linedefined, -1) ∧ ∀ a ∈ p.abslineinfo, (pc : Int) < a.pc)
    ∨ (∃ r : Nat, IsBase p pc r ∧ getbaseline p pc = (absLine p (r : Int), absPc p (r : Int))) := by
  unfold getbaseline
  split
  · next hcond =>
      left
      refine ⟨rfl, ?_⟩
      intro a ha
      rcases hcond with hlen | hlt
      · exact absurd ha (by simp [List.length_eq_zero.mp hlen])
      · obtain ⟨j, hj, hpc⟩ := mem_absPc p ha
        have h0 : absPc p ((0 : Nat) : Int) ≤ absPc p (j : Int) :=
          absPc_mono p wf.anchors_sorted (Nat.zero_le j) hj
        rw [Nat.cast_zero] at h0
        omega
  · next hcond =>
      right
      rw [not_or, not_lt] at hcond
      obtain ⟨hlen, h0le⟩ := hcond
      have hlenpos : 0 < p.abslineinfo.length := Nat.pos_of_ne_zero hlen
      have hi0ge : -1 ≤ (pc : Int) / MAXIWTHABS - 1 := by
        have : 0 ≤ (pc : Int) / MAXIWTHABS :=
          Int.ediv_nonneg (by omega) (by norm_num [MAXIWTHABS])
        omega
      have hi0lt : (pc : Int) / MAXIWTHABS - 1 < (p.abslineinfo.length : Int) := by
        rcases lt_or_le ((pc : Int) / MAXIWTHABS - 1) 0 with h | h
        · omega
        · exact (wf.estimate_lb pc hpc (by omega)).1
      have hi0le : 0 ≤ (pc : Int) / MAXIWTHABS - 1 →
          absPc p ((pc : Int) / MAXIWTHABS - 1) ≤ (pc : Int) := by
        intro h
        exact (wf.estimate_lb pc hpc (by omega)).2
      obtain ⟨r, hbase, heq⟩ := gbAdjust_isBase p pc p.abslineinfo.length
        ((pc : Int) / MAXIWTHABS - 1) hi0ge hi0lt (by omega) hi0le
        (fun _ => ⟨hlenpos, h0le⟩)
      exact ⟨r, hbase, by rw [heq]⟩

/-- On well-formed line info, a non-sentinel delta at `pc+1` advances the
decoded line by exactly that delta (the incremental law behind the fast
path of `changedline`). -/
theorem getfuncline_succ (p : Proto) (li : List Int) (wf : WfLineInfo p li)
    (pc : Nat) (h : pc + 1 < li.length) (hns : li.getD (pc + 1) 0 ≠ ABSLINEINFO) :
    solG_getfuncline p (pc + 1) = solG_getfuncline p pc + li.getD (pc + 1) 0 := by
  have hnoanchor : ∀ a ∈ p.abslineinfo, a.pc ≠ ((pc : Int) + 1) := by
    intro a ha hak
    apply hns
    have := wf.anchor_sentinel a ha
    rwa [hak, show ((pc : Int) + 1).toNat = pc + 1 by omega] at this
  unfold solG_getfuncline
  rw [wf.lineinfo_eq]
  rcases getbaseline_spec p li wf (pc + 1) h with ⟨heq1, hall⟩ | ⟨r, hbase, heq1⟩
  · -- no anchor at or before pc+1; hence none at or before pc either
    have heq0 : getbaseline p pc = (p.linedefined, -1) := by
      unfold getbaseline
      rw [if_pos]
      rcases Nat.eq_zero_or_pos p.abslineinfo.length with hl | hl
      · exact Or.inl hl
      · right
        rw [show (0 : Int) = (((0 : Nat) : Nat) : Int) by norm_num, absPc_natCast p 0 hl]
        have := hall _ (List.get_mem p.abslineinfo 0 hl)
        omega
    rw [heq0, heq1]
    dsimp only
    rw [walkSum_succ li pc (by omega)]
    ring
  · have hmem : p.abslineinfo.get ⟨r, hbase.lt⟩ ∈ p.abslineinfo :=
      List.get_mem p.abslineinfo r hbase.lt
    have hrle : absPc p (r : Int) ≤ (pc : Int) := by
      have hne : absPc p (r : Int) ≠ (pc : Int) + 1 := by
        rw [absPc_natCast p r hbase.lt]
        exact hnoanchor _ hmem
      have := hbase.le
      omega
    have hbase' : IsBase p pc r :=
      ⟨hbase.lt, hrle, fun hlt => by have := hbase.upper hlt; omega⟩
    have heq0 : getbaseline p pc = (absLine p (r : Int), absPc p (r : Int)) := by
      rcases getbaseline_spec p li wf pc (by omega) with ⟨_, hall⟩ | ⟨s, hbs, heqs⟩
      · exfalso
        have := hall _ hmem
        rw [← absPc_natCast p r hbase.lt] at this
        omega
      · rw [isBase_unique p wf.anchors_sorted hbase' hbs]
        exact heqs
    rw [heq0, heq1]
    dsimp only
    rw [walkSum_succ li pc (by omega)]
    ring

/-- C2: for every well-formed prototype and every pair of adjacent valid
program counters, the incremental fast path of `changedline` agrees with
comparing two calls of the reference decoder: `changedline p pc (pc+1)`
holds iff `solG_getfuncline` differs at `pc` and `pc+1`. -/
theorem changedline_adjacent (p : Proto) (li : List Int) (wf : WfLineInfo p li)
    (pc : Nat) (h : pc + 1 < li.length) :
    changedline p pc (pc + 1) = true ↔
      solG_getfuncline p pc ≠ solG_getfuncline p (pc + 1) := by
  have hfast : ((pc : Int) + 1) - (pc : Int) < MAXIWTHABS / 2 := by
    norm_num [MAXIWTHABS]
  by_cases habs : li.getD (pc + 1) 0 = ABSLINEINFO
  · have hcd : cdLoop li (pc + 1) 1 0 pc = none := by
      simp only [cdLoop]
      rw [if_pos habs]
    unfold changedline
    rw [wf.lineinfo_eq]
    dsimp only
    rw [show pc + 1 - pc = 1 by omega, if_pos (by push_cast; exact hfast), hcd]
    simp only [decide_eq_true_eq]
  · have hcd : cdLoop li (pc + 1) 1 0 pc =
        some (decide (0 + li.getD (pc + 1) 0 ≠ 0)) := by
      simp only [cdLoop]
      rw [if_neg habs]
      simp
    unfold changedline
    rw [wf.lineinfo_eq]
    dsimp only
    rw [show pc + 1 - pc = 1 by omega, if_pos (by push_cast; exact hfast), hcd]
    have hstep := getfuncline_succ p li wf pc h habs
    simp only [decide_eq_true_eq, ne_eq, zero_add]
    omega

/-- Witness for C2: the scenario prototype is well-formed and at `pc = 0`
the fast path and the decoder comparison agree (both report a change). -/
theorem changedline_adjacent_witness :
    changedline scenarioProto 0 1 = true ∧
      solG_getfuncline scenarioProto 0 ≠ solG_getfuncline scenarioProto 1 := by
  have wf : WfLineInfo scenarioProto [0, 1, 2, ABSLINEINFO, -3] :=
    ⟨rfl, by decide, by decide, by decide, by decide, by decide⟩
  have h := (changedline_adjacent scenarioProto _ wf 0 (by decide)).mpr (by decide)
  exact ⟨h, by decide⟩

/-- `lastChange` below the scan limit unfolds one instruction. -/
theorem lastChange_step (tA : OpCode → Bool) (code : List Instr) (reg : Nat)
    (lastpc : Int) (pos : Nat) (h : (pos : Int) < lastpc) :
    lastChange tA code reg lastpc pos =
      (match lastChange tA code reg lastpc (pos + 1) with
       | some m => some m
       | none =>
           if changesReg tA (code.getD pos default) reg then some pos else none) := by
  unfold lastChange
  rw [show (lastpc - (pos : Int)).toNat =
      (lastpc - ((pos + 1 : Nat) : Int)).toNat + 1 by push_cast; omega]
  simp only [lcGo]
  rw [if_pos h]

/-- `lastChange` at or beyond the scan limit is `none`. -/
theorem lastChange_stop (tA : OpCode → Bool) (code : List Instr) (reg : Nat)
    (lastpc : Int) (pos : Nat) (h : ¬ (pos : Int) < lastpc) :
    lastChange tA code reg lastpc pos = none := by
  unfold lastChange
  rw [show (lastpc - (pos : Int)).toNat = 0 by omega]
  rfl

/-- `jmtUpto` over an empty range. -/
theorem jmtUpto_stop (code : List Instr) (lastpc j : Int) (pos stop : Nat)
    (h : stop ≤ pos) : jmtUpto code lastpc j pos stop = j := by
  unfold jmtUpto
  rw [show stop - pos = 0 by omega]
  rfl

/-- `jmtUpto` absorbing the instruction at `pos`. -/
theorem jmtUpto_step (code : List Instr) (lastpc j : Int) (pos stop : Nat)
    (h : pos < stop) :
    jmtUpto code lastpc j pos stop =
      jmtUpto code lastpc (jmpStep (code.getD pos default) pos lastpc j)
        (pos + 1) stop := by
  unfold jmtUpto
  rw [show stop - pos = (stop - (pos + 1)) + 1 by omega]
  rfl

/-- Only `OP_JMP` updates `jmptarget`, and `OP_JMP` changes no register;
hence on an instruction that did change `reg`, `jmpStep` is the
identity. -/
theorem jmpStep_of_changesReg (tA : OpCode → Bool) (i : Instr) (reg pos : Nat)
    (lastpc j : Int) (h : changesReg tA i reg = true) :
    jmpStep i pos lastpc j = j := by
  cases hopc : i.op <;> simp [jmpStep, hopc]
  exfalso
  simp [changesReg, hopc] at h

/-- A change found by `lastChange` lies at or after the scan start. -/
theorem lastChange_ge (tA : OpCode → Bool) (code : List Instr) (reg : Nat)
    (lastpc : Int) :
    ∀ (n pos m : Nat), (lastpc - (pos : Int)).toNat ≤ n →
      lastChange tA code reg lastpc pos = some m → pos ≤ m := by
  intro n
  induction n with
  | zero =>
      intro pos m hn hm
      rw [lastChange_stop tA code reg lastpc pos (by omega)] at hm
      exact absurd hm (by simp)
  | succ n ih =>
      intro pos m hn hm
      by_cases h : (pos : Int) < lastpc
      · rw [lastChange_step tA code reg lastpc pos h] at hm
        revert hm
        split
        · next m' heq =>
            intro hm
            have := ih (pos + 1) m' (by omega) heq
            cases hm
            omega
        · next heq =>
            split
            · intro hm; cases hm; omega
            · intro hm; exact absurd hm (by simp)
      · rw [lastChange_stop tA code reg lastpc pos h] at hm
        exact absurd hm (by simp)

/-- The loop of `findsetreg`, started anywhere with enough fuel, returns:
the carried candidate if no later instruction changes `reg`; otherwise
the pc `m` of the last change, filtered against the `jmptarget` in force
when `m` is scanned. -/
theorem fsrLoop_spec (tA : OpCode → Bool) (code : List Instr) (lastpc : Int)
    (reg : Nat) : ∀ (n pos : Nat) (setreg jmptarget : Int),
    (lastpc - (pos : Int)).toNat ≤ n →
    fsrLoop tA code lastpc reg n pos setreg jmptarget =
      match lastChange tA code reg lastpc pos with
      | none => setreg
      | some m => filterpc m (jmtUpto code lastpc jmptarget pos m) := by
  intro n
  induction n with
  | zero =>
      intro pos setreg jmptarget hn
      rw [lastChange_stop tA code reg lastpc pos (by omega)]
      rfl
  | succ n ih =>
      intro pos setreg jmptarget hn
      by_cases h : (pos : Int) < lastpc
      · rw [lastChange_step tA code reg lastpc pos h]
        simp only [fsrLoop]
        rw [if_pos h, ih (pos + 1) _ _ (by omega)]
        cases heq : lastChange tA code reg lastpc (pos + 1) with
        | some m =>
            have hge := lastChange_ge tA code reg lastpc (n + 1) (pos + 1) m
              (by omega) heq
            simp only
            rw [jmtUpto_step code lastpc jmptarget pos m (by omega)]
        | none =>
            simp only
            split
            · next hch =>
                dsimp only
                rw [jmtUpto_stop code lastpc jmptarget pos pos le_rfl,
                  jmpStep_of_changesReg tA _ reg pos lastpc jmptarget hch]
            · next hch => rfl
      · rw [lastChange_stop tA code reg lastpc pos h]
        simp only [fsrLoop]
        rw [if_neg h]

/-- C3 (amended): `findsetreg` first decrements `lastpc` when the
instruction there is a `testMMMode` instruction, then forward-scans
`code[0..lastpc)`; the result is determined by the *last* instruction
that wrote `reg` alone: its pc if that write lies at or after the
`jmptarget` in force when it is scanned, and `-1` otherwise — a write
strictly before `jmptarget` resets the candidate to `-1`, discarding any
earlier accepted write — and `-1` when no instruction in the range writes
`reg`. -/
theorem findsetreg_spec (tA tMM : OpCode → Bool) (p : Proto) (lastpc : Int)
    (reg : Nat) :
    findsetreg tA tMM p lastpc reg =
      (let lp : Int :=
        if tMM (p.code.getD lastpc.toNat default).op then lastpc - 1 else lastpc
      match lastChange tA p.code reg lp 0 with
      | none => -1
      | some m => if (m : Int) < jmtUpto p.code lp 0 0 m then -1 else m) := by
  unfold findsetreg
  rw [fsrLoop_spec tA p.code _ reg _ 0 (-1) 0 (by push_cast; omega)]
  dsimp only
  cases lastChange tA p.code reg
      (if tMM (p.code.getD lastpc.toNat default).op then lastpc - 1 else lastpc) 0 with
  | none => rfl
  | some m => rfl

/-- C3 counterexample: in `fsrProto` with `lastpc = 4`, register 0 is
written unconditionally at pc 0 (at or after the `jmptarget` then in
force, so under the claim's reading it becomes — and stays — the
candidate, the later write at pc 2 being merely discarded), yet
`findsetreg` returns `-1`: the discarded write at pc 2 erased the
surviving candidate. -/
theorem findsetreg_counterexample :
    findsetreg tAex tMMex fsrProto 4 0 = -1 ∧
    findsetregClaim tAex tMMex fsrProto 4 0 = 0 ∧
    changesReg tAex (fsrProto.code.getD 0 default) 0 = true ∧
    jmpStep (fsrProto.code.getD 0 default) 0 4 0 = 0 := by
  refine ⟨by decide, by decide, by decide, by decide⟩

/-- C9 counterexample: `sol_sethook` stores the mask through a cast to
`lu_byte`; a call with the non-zero mask 256 (low byte zero) and a
non-null function leaves `hookmask = 0` while `hook` is non-null,
violating the claimed invariant. -/
theorem sol_sethook_counterexample :
    (sol_sethook {} (some 1) 256 0).hookmask = 0 ∧
    (sol_sethook {} (some 1) 256 0).hook = some 1 := by
  constructor <;> rfl

/-- C9 (amended): after any call of `sol_sethook` whose mask value is not
truncated to zero by the `lu_byte` cast (`mask % 256 = 0` only when
`mask = 0` — in particular any mask built from the four hook bits),
`hookmask = 0` iff `hook` is null; and passing a null function or a zero
mask clears both. -/
theorem sol_sethook_invariant (L : SolState) (func : Option Nat) (mask count : Int)
    (hmask : mask % 256 = 0 → mask = 0) :
    ((sol_sethook L func mask count).hookmask = 0 ↔
      (sol_sethook L func mask count).hook = none) ∧
    (func = none ∨ mask = 0 →
      (sol_sethook L func mask count).hook = none ∧
      (sol_sethook L func mask count).hookmask = 0) := by
  unfold sol_sethook sethookCore
  by_cases h : func = none ∨ mask = 0
  · rw [if_pos h]
    have h0 : cast_byte 0 = 0 := rfl
    constructor
    · by_cases hm : (0 : Int) ≠ 0
      · omega
      · rw [if_neg hm]
        simp [h0]
    · intro _
      by_cases hm : (0 : Int) ≠ 0
      · omega
      · rw [if_neg hm]
        simp [h0]
  · rw [if_neg h]
    rw [not_or] at h
    obtain ⟨hf, hm⟩ := h
    have hbyte : cast_byte mask ≠ 0 := by
      unfold cast_byte
      intro hcon
      apply hm
      apply hmask
      have h1 : 0 ≤ mask % 256 := Int.emod_nonneg mask (by norm_num)
      omega
    rw [if_pos hm]
    refine ⟨?_, fun hcon => absurd hcon (by tauto)⟩
    simp only
    constructor
    · intro hcon; exact absurd hcon hbyte
    · intro hcon; exact absurd hcon hf

/-- Witness for C9 (amended): installing hook 1 with the `LINE` mask
leaves a non-zero mask and a non-null hook, satisfying the invariant. -/
theorem sol_sethook_invariant_witness :
    ((4 : Int) % 256 = 0 → (4 : Int) = 0) ∧
    (((sol_sethook {} (some 1) 4 0).hookmask = 0 ↔
        (sol_sethook {} (some 1) 4 0).hook = none) ∧
      (some 1 = none ∨ (4 : Int) = 0 →
        (sol_sethook {} (some 1) 4 0).hook = none ∧
        (sol_sethook {} (some 1) 4 0).hookmask = 0)) :=
  ⟨by decide, sol_sethook_invariant {} (some 1) 4 0 (by decide)⟩

/-- C7: in a script frame of a vararg function, every `n < 0` with
`-n ≤ nextraargs` resolves to the name `"(vararg)"` at slot
`func - nextraargs - (n+1)`; and with zero extra arguments,
`findlocal(ci, -1)` yields no name. -/
theorem solG_findlocal_vararg (L : SolState) (idx : Nat)
    (hsol : (L.ciAt idx).isSol = true)
    (hva : (L.ciAt idx).proto.is_vararg = true) :
    (∀ n : Int, n < 0 → -n ≤ ((L.ciAt idx).nextraargs : Int) →
      solG_findlocal L idx n =
        some ("(vararg)",
          (L.ciAt idx).func - ((L.ciAt idx).nextraargs : Int) - (n + 1))) ∧
    ((L.ciAt idx).nextraargs = 0 → solG_findlocal L idx (-1) = none) := by
  constructor
  · intro n hn hle
    unfold solG_findlocal
    rw [if_pos ⟨by rw [hsol], hn⟩]
    unfold findvararg
    rw [if_pos hva, if_pos (by omega)]
  · intro h0
    unfold solG_findlocal
    rw [if_pos ⟨by rw [hsol], by norm_num⟩]
    unfold findvararg
    rw [if_pos hva, if_neg (by rw [h0]; norm_num)]

/-- Witness for C7: vararg index `-1` of `varargState` resolves to slot
`10 - 2 - 0 = 8`; with zero extras it fails. -/
theorem solG_findlocal_vararg_witness :
    solG_findlocal varargState 0 (-1) =
      some ("(vararg)",
        (varargState.ciAt 0).func - ((varargState.ciAt 0).nextraargs : Int) - (-1 + 1)) ∧
    solG_findlocal novarargState 0 (-1) = none :=
  ⟨(solG_findlocal_vararg varargState 0 (by decide) (by decide)).1 (-1) (by decide)
      (by decide),
   (solG_findlocal_vararg novarargState 0 (by decide) (by decide)).2 (by decide)⟩

/-- C10: when `solG_findlocal` yields no name, `sol_setlocal` returns
NULL and the state — stack contents and top included — is unchanged; the
top of the stack is popped into the local's slot exactly when a name is
found. -/
theorem sol_setlocal_no_name (L : SolState) (idx : Nat) (n : Int) :
    (solG_findlocal L idx n = none → sol_setlocal L idx n = (none, L)) ∧
    (∀ name pos, solG_findlocal L idx n = some (name, pos) →
      sol_setlocal L idx n =
        (some name,
          { L with
              stk := fun s => if s = pos then L.stk (L.top - 1) else L.stk s,
              top := L.top - 1 })) := by
  constructor
  · intro h
    unfold sol_setlocal
    rw [h]
  · intro name pos h
    unfold sol_setlocal
    rw [h]

/-- Witness for C10: `findlocal` fails on `emptyFrameState`, and
`setlocal` leaves the state untouched. -/
theorem sol_setlocal_no_name_witness :
    sol_setlocal emptyFrameState 0 1 = (none, emptyFrameState) :=
  (sol_setlocal_no_name emptyFrameState 0 1).1 (by decide)

/-- The events of the hook-dispatch tail form one of four lists. -/
theorem traceexecHooks_events (uh : UserHook) (mask : Nat) (p : Proto)
    (counthook : Bool) (L : SolState) (npc : Nat) :
    (traceexecHooks uh mask p counthook L npc).2 = [] ∨
    (traceexecHooks uh mask p counthook L npc).2 = [.count] ∨
    (traceexecHooks uh mask p counthook L npc).2 = [.line] ∨
    (traceexecHooks uh mask p counthook L npc).2 = [.count, .line] := by
  unfold traceexecHooks solD_hook
  cases counthook with
  | false =>
      rw [if_neg (by simp)]
      dsimp only
      by_cases hl : mask &&& SOL_MASKLINE ≠ 0
      · rw [if_pos hl]
        dsimp only
        split <;> split <;> simp
      · rw [if_neg hl]
        simp
  | true =>
      rw [if_pos rfl]
      dsimp only
      by_cases hl : mask &&& SOL_MASKLINE ≠ 0
      · rw [if_pos hl]
        dsimp only
        split <;> split <;> simp
      · rw [if_neg hl]
        simp

/-- The events of one `solG_traceexec` invocation form one of four
lists. -/
theorem traceexec_events_shape (isIT : Instr → Bool) (uh : UserHook)
    (L : SolState) (npc : Nat) :
    (solG_traceexec isIT uh L npc).2.2 = [] ∨
    (solG_traceexec isIT uh L npc).2.2 = [.count] ∨
    (solG_traceexec isIT uh L npc).2.2 = [.line] ∨
    (solG_traceexec isIT uh L npc).2.2 = [.count, .line] := by
  have htail : ∀ (mask : Nat) (p : Proto) (counthook : Bool) (L1 : SolState),
      (traceexecTail isIT uh mask p counthook L1 npc).2.2 = [] ∨
      (traceexecTail isIT uh mask p counthook L1 npc).2.2 = [.count] ∨
      (traceexecTail isIT uh mask p counthook L1 npc).2.2 = [.line] ∨
      (traceexecTail isIT uh mask p counthook L1 npc).2.2 = [.count, .line] := by
    intro mask p counthook L1
    exact traceexecHooks_events uh mask p counthook _ npc
  unfold solG_traceexec
  dsimp only
  split
  · exact Or.inl rfl
  · repeat' split
    all_goals
      first
        | exact Or.inl rfl
        | exact htail _ _ _ _

/-- C4: one invocation of `solG_traceexec` dispatches at most one COUNT
hook and at most one LINE hook, and whenever both are dispatched the
COUNT hook comes first. -/
theorem traceexec_hook_discipline (isIT : Instr → Bool) (uh : UserHook)
    (L : SolState) (npc : Nat) :
    (solG_traceexec isIT uh L npc).2.2.count .count ≤ 1 ∧
    (solG_traceexec isIT uh L npc).2.2.count .line ≤ 1 ∧
    (∀ i : Nat, i < (solG_traceexec isIT uh L npc).2.2.length →
      ∀ j : Nat, j < (solG_traceexec isIT uh L npc).2.2.length →
      (solG_traceexec isIT uh L npc).2.2.getD i .call = .count →
      (solG_traceexec isIT uh L npc).2.2.getD j .call = .line → i < j) := by
  rcases traceexec_events_shape isIT uh L npc with h | h | h | h <;> rw [h] <;>
    refine ⟨by decide, by decide, ?_⟩ <;> decide

/-- Witness for C4: the discipline at the concrete state
`bothHooksState`, where both hooks fire. -/
theorem traceexec_hook_discipline_witness :
    ((solG_traceexec (fun _ => false) uhId bothHooksState 1).2.2.count .count ≤ 1) ∧
    ((solG_traceexec (fun _ => false) uhId bothHooksState 1).2.2.count .line ≤ 1) ∧
    (∀ i : Nat, i < ((solG_traceexec (fun _ => false) uhId bothHooksState 1).2.2).length →
      ∀ j : Nat, j < ((solG_traceexec (fun _ => false) uhId bothHooksState 1).2.2).length →
      ((solG_traceexec (fun _ => false) uhId bothHooksState 1).2.2).getD i .call = .count →
      ((solG_traceexec (fun _ => false) uhId bothHooksState 1).2.2).getD j .call = .line →
      i < j) :=
  traceexec_hook_discipline (fun _ => false) uhId bothHooksState 1

/-- C5: for a script frame at its first instruction (`savedpc = code`),
`solG_tracecall` sets the frame's `trap` to 1 and — when the function is
not vararg and the frame is not resuming from a hook yield — dispatches
exactly one CALL hook, on that trap-armed state; for a vararg function
it sets `trap` but dispatches nothing. -/
theorem solG_tracecall_call_hook (uh : UserHook) (L : SolState)
    (_hsol : L.ci.isSol = true) (h0 : L.ci.savedpc = 0) :
    (L.ci.proto.is_vararg = false → L.ci.callstatus &&& CIST_HOOKYIELD = 0 →
      (solG_tracecall uh L).2.2 = [.call] ∧
      (solG_tracecall uh L).1 = uh .call (-1) (L.setCi { L.ci with trap := 1 }) ∧
      (L.setCi { L.ci with trap := 1 }).ci.trap = 1) ∧
    (L.ci.proto.is_vararg = true →
      (solG_tracecall uh L).2.2 = [] ∧ (solG_tracecall uh L).1.ci.trap = 1) := by
  constructor
  · intro hnv hny
    unfold solG_tracecall
    rw [if_pos h0, if_neg (by rw [hnv]; simp), if_pos hny]
    exact ⟨rfl, rfl, rfl⟩
  · intro hv
    unfold solG_tracecall
    rw [if_pos h0, if_pos hv]
    exact ⟨rfl, rfl⟩

/-- Witness for C5 at concrete states. -/
theorem solG_tracecall_call_hook_witness :
    (solG_tracecall uhId entryState).2.2 = [.call] ∧
    (solG_tracecall uhId varargEntryState).2.2 = [] ∧
    (solG_tracecall uhId varargEntryState).1.ci.trap = 1 :=
  ⟨((solG_tracecall_call_hook uhId entryState (by decide) (by decide)).1
      (by decide) (by decide)).1,
   ((solG_tracecall_call_hook uhId varargEntryState (by decide) (by decide)).2
      (by decide)).1,
   ((solG_tracecall_call_hook uhId varargEntryState (by decide) (by decide)).2
      (by decide)).2⟩

/-- C6: `solG_concaterror` raises a type error with `op = "concatenate"`
describing `p1` exactly when `p1` is not a string, and `p2` otherwise. -/
theorem solG_concaterror_blames (p1 p2 : Value) :
    solG_concaterror p1 p2 =
      { op := "concatenate", blamed := if ttisstring p1 then p2 else p1 } := by
  unfold solG_concaterror solG_typeerror cvt2str
  cases p1 <;> simp [ttisstring]

/-- Status lemma: `auxgetinfo` reports success exactly when every tag
character is recognised. -/
theorem auxgetinfo_status (tA tMM : OpCode → Bool) (L : SolState) :
    ∀ (what : List Char) (ar : DebugInfo) (f : Option Closure) (ci : Option Nat),
    ((auxgetinfo tA tMM L what ar f ci).1 = 1 ↔
      ∀ c ∈ what, recognizedTag c = true) := by
  intro what
  induction what with
  | nil => intro ar f ci; simp [auxgetinfo]
  | cons c rest ih =>
      intro ar f ci
      simp only [auxgetinfo]
      split_ifs with h1 h2 h3 h4 h5 h6 h7 h8
      · subst h1; simp [ih, recognizedTag]
      · subst h2; simp [ih, recognizedTag]
      · subst h3; simp [ih, recognizedTag]
      · subst h4; simp [ih, recognizedTag]
      · subst h5; simp [ih, recognizedTag]
      · subst h6; simp [ih, recognizedTag]
      · subst h7; simp [ih, recognizedTag]
      · subst h8; simp [ih, recognizedTag]
      · simp [recognizedTag, h1, h2, h3, h4, h5, h6, h7, h8]

/-- Record lemma: the record `auxgetinfo` builds is the one built from
the recognised tags alone — unknown characters write no field, and the
recognised tags around them are still processed. -/
theorem auxgetinfo_record (tA tMM : OpCode → Bool) (L : SolState) :
    ∀ (what : List Char) (ar : DebugInfo) (f : Option Closure) (ci : Option Nat),
    (auxgetinfo tA tMM L what ar f ci).2 =
      (auxgetinfo tA tMM L (what.filter recognizedTag) ar f ci).2 := by
  intro what
  induction what with
  | nil => intro ar f ci; simp
  | cons c rest ih =>
      intro ar f ci
      by_cases hc : recognizedTag c = true
      · rw [List.filter_cons_of_pos hc]
        have hc' : c = 'S' ∨ c = 'l' ∨ c = 'u' ∨ c = 't' ∨ c = 'n' ∨ c = 'r' ∨
            c = 'f' ∨ c = 'L' := by
          revert hc
          simp [recognizedTag]
        rcases hc' with rfl | rfl | rfl | rfl | rfl | rfl | rfl | rfl <;>
          exact ih _ f ci
      · rw [List.filter_cons_of_neg hc]
        have hne : c ≠ 'S' ∧ c ≠ 'l' ∧ c ≠ 'u' ∧ c ≠ 't' ∧ c ≠ 'n' ∧ c ≠ 'r' ∧
            c ≠ 'f' ∧ c ≠ 'L' := by
          revert hc
          simp [recognizedTag]
        obtain ⟨n1, n2, n3, n4, n5, n6, n7, n8⟩ := hne
        simp only [auxgetinfo]
        rw [if_neg n1, if_neg n2, if_neg n3, if_neg n4, if_neg n5, if_neg n6,
          if_neg n8, if_neg n7]
        exact ih ar f ci

/-- C8: `auxgetinfo` reports failure status iff the tag string contains
a character outside `{S, l, u, t, n, r, f, L}`; an unrecognised
character writes no field of the record while every recognised tag is
still processed (the record equals the one built from the recognised
tags alone); and `sol_getinfo` (in frame mode) forwards exactly that
status. -/
theorem auxgetinfo_unknown_tags (tA tMM : OpCode → Bool) (L : SolState)
    (what : List Char) (ar : DebugInfo) (f : Option Closure) (ci : Option Nat) :
    ((auxgetinfo tA tMM L what ar f ci).1 = 1 ↔
      ∀ c ∈ what, recognizedTag c = true) ∧
    ((auxgetinfo tA tMM L what ar f ci).2 =
      (auxgetinfo tA tMM L (what.filter recognizedTag) ar f ci).2) ∧
    (what.headD ' ' ≠ '>' →
      ((sol_getinfo tA tMM L what ar).1 = 1 ↔
        ∀ c ∈ what, recognizedTag c = true)) := by
  refine ⟨auxgetinfo_status tA tMM L what ar f ci,
    auxgetinfo_record tA tMM L what ar f ci, ?_⟩
  intro hgt
  unfold sol_getinfo getinfoCore
  rw [if_neg hgt]
  exact auxgetinfo_status tA tMM L what ar _ _

/-- Witness for C8: the tag string `"Slx"` fails (x is unknown) but
still fills the `S` and `l` fields, and `"Sl"` succeeds. -/
theorem auxgetinfo_unknown_tags_witness :
    ((auxgetinfo tAex tMMex {} ['S', 'l', 'x'] {} none none).1 = 1 ↔
      ∀ c ∈ (['S', 'l', 'x'] : List Char), recognizedTag c = true) ∧
    ((auxgetinfo tAex tMMex {} ['S', 'l', 'x'] {} none none).2 =
      (auxgetinfo tAex tMMex {}
        ((['S', 'l', 'x'] : List Char).filter recognizedTag) {} none none).2) ∧
    ((['S', 'l', 'x'] : List Char).headD ' ' ≠ '>' →
      ((sol_getinfo tAex tMMex {} ['S', 'l', 'x'] {}).1 = 1 ↔
        ∀ c ∈ (['S', 'l', 'x'] : List Char), recognizedTag c = true)) :=
  auxgetinfo_unknown_tags tAex tMMex {} ['S', 'l', 'x'] {} none none

end Sol
